import Mathlib

/-!
Shallow embedding of the SF 311 incremental synchronization scripts
(scripts/extract_data.py and scripts/insert_data.py): the record
normalizer (convert_value), the idempotent loader (insert_data), the
watermark resolver and window planner (the body of main), the paginated
extractor (sample_api_data), and the CLI argument stage.
-/

namespace SF311

mutual
/-- A Python value as it arrives from the Socrata API (a JSON-decoded
record field): None, a string, an integer, a dict, or a list. -/
inductive PyValue where
  | none
  | str (s : String)
  | int (n : Int)
  | dict (fields : PyFields)
  | list (elems : PyList)
deriving DecidableEq

/-- The entries of a Python dict, as an association list. -/
inductive PyFields where
  | nil
  | cons (key : String) (val : PyValue) (rest : PyFields)
deriving DecidableEq

/-- The elements of a Python list. -/
inductive PyList where
  | nil
  | cons (val : PyValue) (rest : PyList)
deriving DecidableEq
end

/-- A value as handed to psycopg2: SQL NULL, a Json(...) wrapper, or text. -/
inductive PGValue where
  | null
  | json (v : PyValue)
  | text (s : String)
deriving DecidableEq

/-- Python str(value) for the values the feed produces. -/
def pyStr : PyValue → String
  | .none => "None"
  | .str s => s
  | .int n => toString n
  | .dict _ => "dict"
  | .list _ => "list"

/-- convert_value (insert_data.py lines 76-83): dicts and lists become
Json(value), None stays None (SQL NULL), everything else is str(value). -/
def convert_value : PyValue → PGValue
  | .dict fields => .json (.dict fields)
  | .list elems => .json (.list elems)
  | .none => .null
  | v => .text (pyStr v)

/-- Python string comparison, lexicographic on code points (helper). -/
def pyStrLtAux : List Char → List Char → Bool
  | [], [] => false
  | [], _ :: _ => true
  | _ :: _, [] => false
  | a :: as, b :: bs => if a < b then true else if b < a then false else pyStrLtAux as bs

/-- Python a < b on strings. -/
def pyStrLt (a b : String) : Bool := pyStrLtAux a.data b.data

/-! The idempotent loader (insert_data.py, insert_data). -/

/-- insert_data lines 133-140: the 25 column keys, service_request_id first. -/
def columns : List String :=
  ["service_request_id", "requested_datetime", "closed_date", "updated_datetime",
   "status_description", "status_notes", "agency_responsible", "service_name",
   "service_subtype", "service_details", "address", "street", "supervisor_district",
   "neighborhoods_sffind_boundaries", "analysis_neighborhood", "police_district",
   "lat", "long", "point", "point_geom", "source", "media_url", "bos_2012",
   "data_as_of", "data_loaded_at"]

/-- A raw API record, as Python record.get: every key has a value, with
None standing for an absent key. -/
abbrev RawRecord := String → PyValue

/-- One row of bronze.sf_311_calls: the 25 column values in order. -/
abbrev Row := List PGValue

/-- insert_data lines 131-141: one VALUES tuple, convert_value of
record.get(key) for each column key. -/
def recordArgs (record : RawRecord) : Row :=
  columns.map (fun key => convert_value (record key))

/-- The PRIMARY KEY column service_request_id: the first entry of a row. -/
def keyOf (r : Row) : Option PGValue := r.head?

/-- ON CONFLICT (service_request_id) DO UPDATE SET ... (insert_data
lines 99-127) for a single VALUES tuple: if a row with the same key
exists it is overwritten with the new values, otherwise the new row is
inserted. -/
def upsertRow (rows : List Row) (new : Row) : List Row :=
  if rows.any (fun r => keyOf r = keyOf new) then
    rows.map (fun r => if keyOf r = keyOf new then new else r)
  else rows ++ [new]

/-- The effect of the single bulk INSERT ... ON CONFLICT DO UPDATE on
the table contents, tuple by tuple. -/
def mergeBatch (store : List Row) (args : List Row) : List Row :=
  args.foldl upsertRow store

/-- A psycopg2.Error raised during the bulk upsert. -/
inductive PgError where
  | externalFailure (msg : String)
  | notNullViolation
  | cardinalityViolation
deriving DecidableEq

/-- insert_data (insert_data.py lines 87-150): build the VALUES tuples,
run the bulk upsert and commit; on any psycopg2.Error roll the
transaction back (the store is unchanged) and re-raise the same error.
The fail argument injects an external persistence failure (connection
loss and the like); PostgreSQL itself rejects a NULL primary key and a
batch in which ON CONFLICT DO UPDATE would touch one row twice. The
second component is the error insert_data raises to its caller. -/
def insert_data (fail : Option PgError) (store : List Row) (data : List RawRecord) :
    List Row × Option PgError :=
  match fail with
  | some e => (store, some e)
  | Option.none =>
    if (data.map recordArgs).any (fun a => keyOf a = some PGValue.null) then
      (store, some PgError.notNullViolation)
    else if ¬ ((data.map recordArgs).map keyOf).Nodup then
      (store, some PgError.cardinalityViolation)
    else (mergeBatch store (data.map recordArgs), Option.none)

/-- A sequence of runs of the loader, each with its own failure oracle
and batch; a failed run leaves the store as it was (rollback). -/
def loadAll (store : List Row) (loads : List (Option PgError × List RawRecord)) : List Row :=
  loads.foldl (fun s l => (insert_data l.1 s l.2).1) store

/-- main lines 213-222 around the loader: insert_data runs inside try;
on an exception main prints the cause, rolls back and returns normally,
so nothing is re-raised. The second component is the error escaping
main to the process invoker. -/
def main_persist (fail : Option PgError) (store : List Row) (data : List RawRecord) :
    List Row × Option PgError :=
  match insert_data fail store data with
  | (s, some _) => (s, Option.none)
  | (s, Option.none) => (s, Option.none)

/-! The watermark resolver and window planner (insert_data.py, main). -/

/-- main lines 185-192: fetchone()[0] passed through Python truthiness,
so SQL NULL and the empty string both collapse to None. -/
def resolveWatermark : Option String → Option String
  | some s => if s = "" then Option.none else some s
  | Option.none => Option.none

/-- main line 200: existing_min and min_start_str < existing_min, with
Python truthiness (None is falsy) and lexical string comparison. -/
def is_historical (existing_min : Option String) (min_start_str : String) : Bool :=
  match existing_min with
  | some m => pyStrLt min_start_str m
  | Option.none => false

/-- main lines 199-202: updated_filter stays None in historical mode,
otherwise it is the max_updated watermark. -/
def updated_filter_of (existing_min max_updated : Option String) (min_start_str : String) :
    Option String :=
  if is_historical existing_min min_start_str then Option.none else max_updated

/-- main line 204: the fetch-type label. -/
def fetch_type_of (existing_min : Option String) (min_start_str : String) : String :=
  if is_historical existing_min min_start_str then "historical full" else "incremental"

/-- sample_api_data lines 30-33: the SoQL where clause. Python appends
the updated_datetime clause only when updated_filter is truthy, that
is, neither None nor the empty string. -/
def build_where (min_start_str : String) (updated_filter : Option String) : String :=
  let base := "requested_datetime >= \"" ++ min_start_str ++ "\""
  match updated_filter with
  | some u => if u = "" then base else base ++ " AND updated_datetime > \"" ++ u ++ "\""
  | Option.none => base

/-! The paginated extractor (extract_data.py, sample_api_data). -/

/-- One page of the remote result set: rows of the matched set from the
given offset, at most lim of them (Socrata offset pagination over a
stable ordering of the matched records). -/
def pageOf {α : Type} (remote : List α) (lim offset : Nat) : List α :=
  (remote.drop offset).take lim

/-- sample_api_data lines 42-64 in the failure-free case: accumulate
pages from the given offset; a page with fewer than lim rows ends the
loop, otherwise offset advances by lim. Returns the accumulated rows
and the list of offsets requested. -/
def fetchLoop {α : Type} (remote : List α) (lim : Nat) (hlim : 0 < lim) (offset : Nat)
    (all_results : List α) (reqs : List Nat) : List α × List Nat :=
  if h : (pageOf remote lim offset).length < lim then
    (all_results ++ pageOf remote lim offset, reqs ++ [offset])
  else
    fetchLoop remote lim hlim (offset + lim)
      (all_results ++ pageOf remote lim offset) (reqs ++ [offset])
termination_by remote.length - offset
decreasing_by
  simp only [pageOf, List.length_take, List.length_drop] at h
  omega

/-- sample_api_data, failure-free, with the source's limit of 1000. -/
def sample_api_data {α : Type} (remote : List α) : List α × List Nat :=
  fetchLoop remote 1000 (by decide) 0 [] []

/-- One response of the remote endpoint to a page request: the raised
exception (any Exception whatsoever) or the returned rows. -/
inductive FetchResult (α : Type) where
  | err
  | ok (rows : List α)

/-- The loop state of sample_api_data: current offset, accumulated
results, and whether the while loop has exited. -/
structure ExtState (α : Type) where
  offset : Nat
  all_results : List α
  done : Bool

/-- The try block of one loop iteration (extract_data lines 43-64):
client.get may raise; otherwise the rows are appended and the loop
either breaks (short page) or advances offset by lim. An error value
models the raised exception leaving the try block. -/
def tryFetchBody {α : Type} (lim : Nat) (s : ExtState α) (r : FetchResult α) :
    Except Unit (ExtState α) :=
  match r with
  | .err => .error ()
  | .ok rows =>
    let acc := s.all_results ++ rows
    if rows.length < lim then .ok ⟨s.offset, acc, true⟩
    else .ok ⟨s.offset + lim, acc, false⟩

/-- One iteration including the handler (lines 65-67): except Exception
catches everything, prints, sleeps and loops again with offset and
all_results unchanged. Once the loop has exited, later responses are
ignored. -/
def extractStep {α : Type} (lim : Nat) (s : ExtState α) (r : FetchResult α) : ExtState α :=
  if s.done then s
  else
    match tryFetchBody lim s r with
    | .error _ => s
    | .ok s' => s'

/-- Run the extractor loop over a finite script of endpoint responses. -/
def extractRun {α : Type} (lim : Nat) (s : ExtState α) (script : List (FetchResult α)) :
    ExtState α :=
  script.foldl (extractStep lim) s

/-! The CLI argument stage (insert_data.py, main lines 152-179). -/

/-- Whitespace Python int() strips around a numeral. -/
def isPySpace (c : Char) : Bool :=
  c = ' ' || c = '\t' || c = '\n' || c = '\r' || c = '\x0B' || c = '\x0C'

/-- Decimal digits after the first one, most significant first, with a
single underscore allowed between two digits — the digit grammar of a
Python int numeral (helper for the int() model). -/
def parseDigitsAux : List Char → Nat → Option Nat
  | [], acc => some acc
  | '_' :: c :: cs, acc =>
    if c.isDigit then parseDigitsAux cs (acc * 10 + (c.toNat - 48)) else Option.none
  | ['_'], _ => Option.none
  | c :: cs, acc =>
    if c.isDigit then parseDigitsAux cs (acc * 10 + (c.toNat - 48)) else Option.none

/-- At least one decimal digit, underscores only between digits. -/
def parseDigits : List Char → Option Nat
  | c :: cs => if c.isDigit then parseDigitsAux cs (c.toNat - 48) else Option.none
  | [] => Option.none

/-- argparse type=int applied to one positional argument: Python int()
on a string — surrounding whitespace stripped, an optional + or - sign,
then decimal digits with single underscore separators allowed between
digits; anything else raises, and argparse exits before any further
work. -/
def parseIntArg (s : String) : Option Int :=
  match ((s.data.dropWhile isPySpace).reverse.dropWhile isPySpace).reverse with
  | '-' :: cs => (parseDigits cs).map (fun n => -(n : Int))
  | '+' :: cs => (parseDigits cs).map (fun n => (n : Int))
  | cs => (parseDigits cs).map (fun n => (n : Int))

/-- Python format spec 02d: pad to width two with a leading zero. -/
def pad2 (n : Int) : String :=
  let s := toString n
  if s.length < 2 then "0" ++ s else s

/-- main line 177: the CLI start timestamp string. -/
def min_start_of (year month day : Int) : String :=
  toString year ++ "-" ++ pad2 month ++ "-" ++ pad2 day ++ "T00:00:00.000"

/-- An externally visible action of one run of main. -/
inductive Effect where
  | store
  | network
deriving DecidableEq

/-- The order of external actions of main (lines 175-214): argparse
runs first and exits on a parse failure before anything else; with
parsed arguments the run connects and creates the table, reads the two
watermarks (store activity), fetches pages from the API (network) and
upserts the batch (store). -/
def main_trace (yearArg monthArg dayArg : String) : List Effect :=
  match parseIntArg yearArg, parseIntArg monthArg, parseIntArg dayArg with
  | some _, some _, some _ =>
      [Effect.store, Effect.store, Effect.store, Effect.store, Effect.network, Effect.store]
  | _, _, _ => []

/-- Modelled from the spec: a valid calendar start date (spec section 7
calls an invalid start date a configuration error). The scripts contain
no such check; this definition only articulates which start dates the
spec calls invalid. -/
def spec_validDate (y m d : Int) : Bool :=
  let leap := (y % 4 == 0 && y % 100 != 0) || y % 400 == 0
  let dim : Int :=
    if m = 2 then (if leap then 29 else 28)
    else if m = 4 ∨ m = 6 ∨ m = 9 ∨ m = 11 then 30
    else 31
  decide (1 ≤ m) && decide (m ≤ 12) && decide (1 ≤ d) && decide (d ≤ dim)

/-- A concrete raw API record with identifier X and a settable status
field, used as a sample input. -/
def sampleRecord (status : String) : RawRecord :=
  fun key =>
    if key = "service_request_id" then PyValue.str "X"
    else if key = "status_description" then PyValue.str status
    else PyValue.none

/-! Helper lemmas. -/

theorem resolveWatermark_ne_empty {raw : Option String} {s : String}
    (h : resolveWatermark raw = some s) : ¬ s = "" := by
  cases raw with
  | none => simp [resolveWatermark] at h
  | some t =>
    by_cases ht : t = ""
    · simp [resolveWatermark, ht] at h
    · simp only [resolveWatermark, if_neg ht, Option.some.injEq] at h
      exact h ▸ ht

/-! Claim theorems. -/

/-- C7: convert_value is total (a case for every value shape) and
deterministic, maps dicts and lists to a Json-tagged structured value,
None to SQL NULL, and every other scalar to its textual
representation. -/
theorem convert_value_spec :
    (∀ v w : PyValue, v = w → convert_value v = convert_value w)
    ∧ (∀ fields, convert_value (PyValue.dict fields) = PGValue.json (PyValue.dict fields))
    ∧ (∀ elems, convert_value (PyValue.list elems) = PGValue.json (PyValue.list elems))
    ∧ convert_value PyValue.none = PGValue.null
    ∧ (∀ s, convert_value (PyValue.str s) = PGValue.text s)
    ∧ (∀ n : Int, convert_value (PyValue.int n) = PGValue.text (toString n)) :=
  ⟨fun _ _ h => by rw [h], fun _ => rfl, fun _ => rfl, rfl, fun _ => rfl, fun _ => rfl⟩

/-- Witness for C7 at concrete inputs. -/
theorem convert_value_spec_witness :
    convert_value (PyValue.int 3) = convert_value (PyValue.int 3)
    ∧ convert_value PyValue.none = PGValue.null :=
  ⟨convert_value_spec.1 (PyValue.int 3) (PyValue.int 3) rfl, convert_value_spec.2.2.2.1⟩

/-- C1 counterexample: with an empty store (both watermarks NULL) and
requested_from 2025-01-01T00:00:00.000, the planner labels the run
incremental, not historical. -/
theorem empty_store_mode_cex :
    fetch_type_of (resolveWatermark Option.none) "2025-01-01T00:00:00.000" = "incremental"
    ∧ "incremental" ≠ "historical full" :=
  ⟨rfl, by decide⟩

/-- C1 amended: for every run against an empty store the planner labels
the run incremental (not historical), the updated filter is None, and
the fetch predicate is the requested_datetime clause alone with no
updated_datetime clause, regardless of the caller-supplied
requested_from. -/
theorem empty_store_full_fetch (min_start_str : String) :
    fetch_type_of (resolveWatermark Option.none) min_start_str = "incremental"
    ∧ updated_filter_of (resolveWatermark Option.none) (resolveWatermark Option.none)
        min_start_str = Option.none
    ∧ build_where min_start_str
        (updated_filter_of (resolveWatermark Option.none) (resolveWatermark Option.none)
          min_start_str)
      = "requested_datetime >= \"" ++ min_start_str ++ "\"" :=
  ⟨rfl, rfl, rfl⟩

/-- C5: for a non-empty store whose resolved watermarks are both
present and whose requested_from is not lexically before min_requested,
the planner labels the run incremental and the where clause carries the
strict updated_datetime lower bound at max_updated alongside the
requested_datetime bound. -/
theorem incremental_window (rawMin rawMax : Option String) (m u min_start_str : String)
    (hmin : resolveWatermark rawMin = some m)
    (hmax : resolveWatermark rawMax = some u)
    (hge : pyStrLt min_start_str m = false) :
    fetch_type_of (resolveWatermark rawMin) min_start_str = "incremental"
    ∧ updated_filter_of (resolveWatermark rawMin) (resolveWatermark rawMax) min_start_str
        = some u
    ∧ build_where min_start_str
        (updated_filter_of (resolveWatermark rawMin) (resolveWatermark rawMax) min_start_str)
      = ("requested_datetime >= \"" ++ min_start_str ++ "\"")
          ++ " AND updated_datetime > \"" ++ u ++ "\"" := by
  have hne : ¬ u = "" := resolveWatermark_ne_empty hmax
  rw [hmin, hmax]
  refine ⟨?_, ?_, ?_⟩
  · simp [fetch_type_of, is_historical, hge]
  · simp [updated_filter_of, is_historical, hge]
  · simp [build_where, updated_filter_of, is_historical, hge, hne]

/-- Witness for C5: the spec's own scenario, min_requested 2025-01-01,
max_updated 2025-03-01, requested_from 2025-02-01. -/
theorem incremental_window_witness :
    fetch_type_of (resolveWatermark (some "2025-01-01T00:00:00.000"))
        "2025-02-01T00:00:00.000" = "incremental"
    ∧ updated_filter_of (resolveWatermark (some "2025-01-01T00:00:00.000"))
        (resolveWatermark (some "2025-03-01T00:00:00.000")) "2025-02-01T00:00:00.000"
        = some "2025-03-01T00:00:00.000"
    ∧ build_where "2025-02-01T00:00:00.000"
        (updated_filter_of (resolveWatermark (some "2025-01-01T00:00:00.000"))
          (resolveWatermark (some "2025-03-01T00:00:00.000")) "2025-02-01T00:00:00.000")
      = ("requested_datetime >= \"" ++ "2025-02-01T00:00:00.000" ++ "\"")
          ++ " AND updated_datetime > \"" ++ "2025-03-01T00:00:00.000" ++ "\"" :=
  incremental_window (some "2025-01-01T00:00:00.000") (some "2025-03-01T00:00:00.000")
    "2025-01-01T00:00:00.000" "2025-03-01T00:00:00.000" "2025-02-01T00:00:00.000"
    (by decide) (by decide) (by decide)

theorem extractStep_err {α : Type} (lim : Nat) (s : ExtState α) :
    extractStep lim s FetchResult.err = s := by
  unfold extractStep
  split <;> rfl

theorem extractRun_err {α : Type} (lim : Nat) (s : ExtState α) :
    ∀ script : List (FetchResult α), (∀ r ∈ script, r = FetchResult.err) →
      extractRun lim s script = s := by
  intro script
  induction script generalizing s with
  | nil => intro _; rfl
  | cons r rest ih =>
    intro hall
    have hr : r = FetchResult.err := hall r (List.mem_cons_self r rest)
    have hrest : ∀ x ∈ rest, x = FetchResult.err := fun x hx => hall x (List.mem_cons_of_mem r hx)
    simp only [extractRun, List.foldl_cons, hr, extractStep_err]
    exact ih s hrest

/-- C6: any number of consecutive page-fetch failures leaves the
extractor state unchanged — same offset (so the same page is requested
next), accumulated results intact and the loop still running — with no
retry ceiling, so a page failure by itself never ends the run and never
drops records. -/
theorem transient_failure_retry {α : Type} (lim : Nat) (s : ExtState α)
    (hrun : s.done = false) (n : Nat) :
    extractRun lim s (List.replicate n FetchResult.err) = s
    ∧ (extractRun lim s (List.replicate n FetchResult.err)).offset = s.offset
    ∧ (extractRun lim s (List.replicate n FetchResult.err)).all_results = s.all_results
    ∧ (extractRun lim s (List.replicate n FetchResult.err)).done = false := by
  have key : extractRun lim s (List.replicate n FetchResult.err) = s :=
    extractRun_err lim s _ (fun r hr => (List.eq_of_mem_replicate hr))
  exact ⟨key, by rw [key], by rw [key], by rw [key]; exact hrun⟩

/-- Witness for C6: three straight failures at offset 2000 with two
accumulated rows leave the extractor exactly where it was. -/
theorem transient_failure_retry_witness :
    extractRun 1000 (ExtState.mk 2000 ([5, 7] : List Nat) false)
        (List.replicate 3 FetchResult.err) = ExtState.mk 2000 [5, 7] false
    ∧ (extractRun 1000 (ExtState.mk 2000 ([5, 7] : List Nat) false)
        (List.replicate 3 FetchResult.err)).offset = (ExtState.mk 2000 ([5, 7] : List Nat) false).offset
    ∧ (extractRun 1000 (ExtState.mk 2000 ([5, 7] : List Nat) false)
        (List.replicate 3 FetchResult.err)).all_results = (ExtState.mk 2000 ([5, 7] : List Nat) false).all_results
    ∧ (extractRun 1000 (ExtState.mk 2000 ([5, 7] : List Nat) false)
        (List.replicate 3 FetchResult.err)).done = false :=
  transient_failure_retry 1000 (ExtState.mk 2000 [5, 7] false) rfl 3

/-- C10: the except handler catches every exception from a page fetch —
transient or not — so whenever the try body raises, the step returns
the state unchanged and the same page is retried; a script made only of
failing responses, of any length, leaves the extractor exactly where it
started, never surfacing an error out of the loop. -/
theorem fetch_errors_never_escape {α : Type} (lim : Nat) :
    (∀ (s : ExtState α) (r : FetchResult α),
        tryFetchBody lim s r = Except.error () → extractStep lim s r = s)
    ∧ ∀ (s : ExtState α) (script : List (FetchResult α)),
        (∀ r ∈ script, r = FetchResult.err) → extractRun lim s script = s := by
  refine ⟨?_, fun s script h => extractRun_err lim s script h⟩
  intro s r h
  unfold extractStep
  split
  · rfl
  · rw [h]

/-- Witness for C10: a failing response at a live state, and a script
of two failures, both leave the state untouched. -/
theorem fetch_errors_never_escape_witness :
    extractStep 1000 (ExtState.mk 0 ([] : List Nat) false) FetchResult.err
      = ExtState.mk 0 [] false
    ∧ extractRun 1000 (ExtState.mk 0 ([] : List Nat) false)
        [FetchResult.err, FetchResult.err] = ExtState.mk 0 [] false :=
  ⟨(fetch_errors_never_escape 1000).1 _ _ rfl,
   (fetch_errors_never_escape 1000).2 _ _ (by simp)⟩

theorem fetchLoop_spec {α : Type} (lim : Nat) (hlim : 0 < lim) (r : Nat) (hr : r < lim) :
    ∀ (k : Nat) (remote : List α) (offset : Nat) (acc : List α) (reqs : List Nat),
      remote.length = offset + lim * k + r →
      fetchLoop remote lim hlim offset acc reqs
        = (acc ++ remote.drop offset,
           reqs ++ (List.range (k + 1)).map (fun i => offset + i * lim)) := by
  intro k
  induction k with
  | zero =>
    intro remote offset acc reqs hlen
    have hplen : (pageOf remote lim offset).length = r := by
      simp only [pageOf, List.length_take, List.length_drop]
      omega
    have hpage : pageOf remote lim offset = remote.drop offset := by
      apply List.take_of_length_le
      simp only [List.length_drop]
      omega
    unfold fetchLoop
    rw [dif_pos (by omega)]
    rw [hpage]
    have hone : (List.range 1).map (fun i => offset + i * lim) = [offset] := by
      simp [List.range_succ_eq_map]
    rw [hone]
  | succ k ih =>
    intro remote offset acc reqs hlen
    rw [Nat.mul_succ] at hlen
    have hplen : (pageOf remote lim offset).length = lim := by
      simp only [pageOf, List.length_take, List.length_drop]
      omega
    unfold fetchLoop
    rw [dif_neg (by omega)]
    rw [ih remote (offset + lim) _ _ (by omega)]
    have hdrop : pageOf remote lim offset ++ remote.drop (offset + lim)
        = remote.drop offset := by
      have hdd : remote.drop (offset + lim) = (remote.drop offset).drop lim := by
        rw [List.drop_drop, Nat.add_comm]
      rw [hdd, pageOf, List.take_append_drop]
    have hranges : (List.range (k + 1 + 1)).map (fun i => offset + i * lim)
        = offset :: (List.range (k + 1)).map (fun i => offset + lim + i * lim) := by
      rw [List.range_succ_eq_map, List.map_cons, List.map_map]
      congr 1
      · simp
      · apply List.map_congr_left
        intro i _
        simp only [Function.comp_apply, Nat.succ_eq_add_one]
        ring
    rw [hranges, List.append_assoc acc, hdrop, List.append_assoc reqs, List.singleton_append]

/-- C3: on a failure-free run against a result set of exactly
lim * k + r matched records (0 ≤ r < lim), the extractor issues exactly
k + 1 page requests, at offsets 0, lim, ..., k * lim, and returns
exactly the matched records — every one of them, none twice. -/
theorem pagination_complete {α : Type} (lim : Nat) (hlim : 0 < lim)
    (remote : List α) (k r : Nat) (hr : r < lim)
    (hlen : remote.length = lim * k + r) :
    fetchLoop remote lim hlim 0 [] []
      = (remote, (List.range (k + 1)).map (fun i => i * lim))
    ∧ (fetchLoop remote lim hlim 0 [] []).2.length = k + 1 := by
  have h := fetchLoop_spec lim hlim r hr k remote 0 [] [] (by omega)
  constructor
  · simpa using h
  · rw [h]
    simp

/-- Witness for C3: page size 3 against 7 matched records (k = 2,
r = 1) gives three requests at offsets 0, 3, 6 and all seven records. -/
theorem pagination_complete_witness :
    fetchLoop ([0, 1, 2, 3, 4, 5, 6] : List Nat) 3 (by decide) 0 [] []
      = ([0, 1, 2, 3, 4, 5, 6], [0, 3, 6]) := by
  have h := (pagination_complete 3 (by decide) ([0, 1, 2, 3, 4, 5, 6] : List Nat) 2 1
    (by decide) (by decide)).1
  rw [h]
  rfl

/-- C8: a successful page with fewer rows than the limit ends the loop
at once — the empty page closing an exact-multiple result set included —
and on a finite failure-free result set of lim * k records the loop
stops after exactly k + 1 requests. -/
theorem short_page_terminates {α : Type} (lim : Nat) (hlim : 0 < lim) :
    (∀ (s : ExtState α) (rows : List α), s.done = false → rows.length < lim →
        (extractStep lim s (FetchResult.ok rows)).done = true)
    ∧ ∀ (remote : List α) (k : Nat), remote.length = lim * k →
        (fetchLoop remote lim hlim 0 [] []).2.length = k + 1 := by
  constructor
  · intro s rows hdone hlen
    simp [extractStep, tryFetchBody, hdone, hlen]
  · intro remote k hk
    have h := fetchLoop_spec lim hlim 0 hlim k remote 0 [] [] (by omega)
    rw [h]
    simp

/-- Witness for C8: an empty page ends a live loop, and a result set of
exactly 2 * 1 records costs 1 + 1 requests (the second one empty). -/
theorem short_page_terminates_witness :
    (extractStep 2 (ExtState.mk 0 ([] : List Nat) false) (FetchResult.ok [])).done = true
    ∧ (fetchLoop ([10, 20] : List Nat) 2 (by decide) 0 [] []).2.length = 1 + 1 :=
  ⟨(short_page_terminates 2 (by decide)).1 _ [] rfl (by decide),
   (short_page_terminates 2 (by decide)).2 [10, 20] 1 (by decide)⟩

theorem upsertRow_present {rows : List Row} {new : Row}
    (h : rows.any (fun r => keyOf r = keyOf new) = true) :
    upsertRow rows new = rows.map (fun r => if keyOf r = keyOf new then new else r) := by
  unfold upsertRow
  rw [if_pos h]

theorem upsertRow_absent {rows : List Row} {new : Row}
    (h : rows.any (fun r => keyOf r = keyOf new) = false) :
    upsertRow rows new = rows ++ [new] := by
  unfold upsertRow
  rw [if_neg (by simp [h])]

theorem keys_upsertRow_present {rows : List Row} {new : Row}
    (h : rows.any (fun r => keyOf r = keyOf new) = true) :
    (upsertRow rows new).map keyOf = rows.map keyOf := by
  rw [upsertRow_present h, List.map_map]
  apply List.map_congr_left
  intro r _
  simp only [Function.comp_apply]
  split
  · next heq => rw [heq]
  · rfl

theorem keys_upsertRow_absent {rows : List Row} {new : Row}
    (h : rows.any (fun r => keyOf r = keyOf new) = false) :
    (upsertRow rows new).map keyOf = rows.map keyOf ++ [keyOf new] := by
  rw [upsertRow_absent h, List.map_append, List.map_cons, List.map_nil]

theorem keys_upsertRow_nodup {rows : List Row} {new : Row}
    (hnd : (rows.map keyOf).Nodup) : ((upsertRow rows new).map keyOf).Nodup := by
  cases hany : rows.any (fun r => keyOf r = keyOf new) with
  | true => rw [keys_upsertRow_present hany]; exact hnd
  | false =>
    rw [keys_upsertRow_absent hany]
    have hno : ∀ x ∈ rows, ¬ keyOf x = keyOf new := by
      intro x hx
      have := List.any_eq_false.mp hany x hx
      simpa using this
    rw [List.nodup_append]
    refine ⟨hnd, List.nodup_singleton _, ?_⟩
    intro a ha hb
    obtain ⟨x, hx, hax⟩ := List.mem_map.mp ha
    have hb' : a = keyOf new := by simpa using hb
    exact hno x hx (hax.trans hb')

theorem filter_map_upsert (new : Row) :
    ∀ rows : List Row, (rows.map keyOf).Nodup → (∃ x ∈ rows, keyOf x = keyOf new) →
      (rows.map (fun r => if keyOf r = keyOf new then new else r)).filter
          (fun r => keyOf r = keyOf new) = [new] := by
  intro rows
  induction rows with
  | nil => intro _ hex; simp at hex
  | cons r rest ih =>
    intro hnd hex
    by_cases hk : keyOf r = keyOf new
    · have hnotin : keyOf r ∉ rest.map keyOf := by
        simp only [List.map_cons, List.nodup_cons] at hnd
        exact hnd.1
      have hrest0 : (rest.map (fun r => if keyOf r = keyOf new then new else r)).filter
          (fun r => keyOf r = keyOf new) = [] := by
        rw [List.filter_eq_nil_iff]
        intro a ha
        obtain ⟨x, hx, hax⟩ := List.mem_map.mp ha
        have hxk : ¬ keyOf x = keyOf new := by
          intro hh
          exact hnotin (by rw [hk, ← hh]; exact List.mem_map_of_mem keyOf hx)
        rw [← hax]
        simp [hxk]
      simp only [List.map_cons, if_pos hk, List.filter_cons]
      rw [if_pos (by simp), hrest0]
    · have hex' : ∃ x ∈ rest, keyOf x = keyOf new := by
        obtain ⟨x, hx, hxx⟩ := hex
        rcases List.mem_cons.mp hx with h | h
        · exact absurd (h ▸ hxx) hk
        · exact ⟨x, h, hxx⟩
      have hnd' : (rest.map keyOf).Nodup := by
        simp only [List.map_cons, List.nodup_cons] at hnd
        exact hnd.2
      simp only [List.map_cons, if_neg hk, List.filter_cons]
      rw [if_neg (by simp [hk])]
      exact ih hnd' hex'

theorem filter_upsertRow {rows : List Row} {new : Row}
    (hnd : (rows.map keyOf).Nodup) :
    (upsertRow rows new).filter (fun r => keyOf r = keyOf new) = [new] := by
  cases hany : rows.any (fun r => keyOf r = keyOf new) with
  | false =>
    rw [upsertRow_absent hany, List.filter_append]
    have h1 : rows.filter (fun r => keyOf r = keyOf new) = [] := by
      rw [List.filter_eq_nil_iff]
      intro a ha
      have := List.any_eq_false.mp hany a ha
      simpa using this
    rw [h1]
    simp
  | true =>
    rw [upsertRow_present hany]
    have hex : ∃ x ∈ rows, keyOf x = keyOf new := by
      have := List.any_eq_true.mp hany
      simpa using this
    exact filter_map_upsert new rows hnd hex

theorem keys_mergeBatch_nodup (args : List Row) : ∀ store : List Row,
    (store.map keyOf).Nodup → ((mergeBatch store args).map keyOf).Nodup := by
  induction args with
  | nil => intro store h; exact h
  | cons a rest ih =>
    intro store h
    simp only [mergeBatch, List.foldl_cons] at *
    exact ih _ (keys_upsertRow_nodup h)

theorem insert_data_none_eq (store : List Row) (data : List RawRecord) :
    insert_data Option.none store data
      = if (data.map recordArgs).any (fun a => keyOf a = some PGValue.null) then
          (store, some PgError.notNullViolation)
        else if ¬ ((data.map recordArgs).map keyOf).Nodup then
          (store, some PgError.cardinalityViolation)
        else (mergeBatch store (data.map recordArgs), Option.none) := rfl

theorem keys_insert_data_nodup (fail : Option PgError) (store : List Row)
    (data : List RawRecord) (hnd : (store.map keyOf).Nodup) :
    (((insert_data fail store data).1).map keyOf).Nodup := by
  cases fail with
  | some e => exact hnd
  | none =>
    rw [insert_data_none_eq]
    split_ifs with h1 h2
    · exact hnd
    · exact keys_mergeBatch_nodup _ store hnd
    · exact hnd

theorem keys_loadAll_nodup (loads : List (Option PgError × List RawRecord)) :
    ∀ store : List Row, (store.map keyOf).Nodup →
      ((loadAll store loads).map keyOf).Nodup := by
  induction loads with
  | nil => intro store h; exact h
  | cons l rest ih =>
    intro store h
    simp only [loadAll, List.foldl_cons] at *
    exact ih _ (keys_insert_data_nodup l.1 store l.2 h)

theorem insert_data_single (store : List Row) (rec : RawRecord)
    (hnn : ¬ keyOf (recordArgs rec) = some PGValue.null) :
    insert_data Option.none store [rec]
      = (upsertRow store (recordArgs rec), Option.none) := by
  unfold insert_data
  simp [hnn, mergeBatch]

/-- C2: under the overwrite policy, loading a record with identifier X
and then a second record with the same identifier leaves exactly one
stored row for that identifier — whether looked up by the second or the
first record's key — and that row carries the second record's converted
values; and after any sequence of loads the store still has at most one
row per identifier (its key list has no duplicates). -/
theorem upsert_overwrite (store : List Row) (r1 r2 : RawRecord)
    (hnd : (store.map keyOf).Nodup)
    (hkey : keyOf (recordArgs r1) = keyOf (recordArgs r2))
    (hnn : ¬ keyOf (recordArgs r2) = some PGValue.null) :
    ((insert_data Option.none (insert_data Option.none store [r1]).1 [r2]).1).filter
        (fun row => keyOf row = keyOf (recordArgs r2)) = [recordArgs r2]
    ∧ ((insert_data Option.none (insert_data Option.none store [r1]).1 [r2]).1).filter
        (fun row => keyOf row = keyOf (recordArgs r1)) = [recordArgs r2]
    ∧ (((insert_data Option.none (insert_data Option.none store [r1]).1 [r2]).1).map
        keyOf).Nodup
    ∧ ∀ loads : List (Option PgError × List RawRecord),
        ((loadAll store loads).map keyOf).Nodup := by
  have hnn1 : ¬ keyOf (recordArgs r1) = some PGValue.null := by rw [hkey]; exact hnn
  rw [insert_data_single store r1 hnn1]
  rw [insert_data_single (upsertRow store (recordArgs r1)) r2 hnn]
  have hnd1 : ((upsertRow store (recordArgs r1)).map keyOf).Nodup := keys_upsertRow_nodup hnd
  refine ⟨filter_upsertRow hnd1, ?_, keys_upsertRow_nodup hnd1,
    fun loads => keys_loadAll_nodup loads store hnd⟩
  rw [hkey]
  exact filter_upsertRow hnd1

/-- Witness for C2: the empty store, then a record for X with status
open, then a record for X with status closed, leave exactly one row for
X holding the closed record's values. -/
theorem upsert_overwrite_witness :
    ((insert_data Option.none
        (insert_data Option.none [] [sampleRecord "open"]).1 [sampleRecord "closed"]).1).filter
        (fun row => keyOf row = keyOf (recordArgs (sampleRecord "closed")))
      = [recordArgs (sampleRecord "closed")]
    ∧ ((insert_data Option.none
        (insert_data Option.none [] [sampleRecord "open"]).1 [sampleRecord "closed"]).1).filter
        (fun row => keyOf row = keyOf (recordArgs (sampleRecord "open")))
      = [recordArgs (sampleRecord "closed")]
    ∧ (((insert_data Option.none
        (insert_data Option.none [] [sampleRecord "open"]).1 [sampleRecord "closed"]).1).map
        keyOf).Nodup
    ∧ ∀ loads : List (Option PgError × List RawRecord),
        ((loadAll [] loads).map keyOf).Nodup :=
  upsert_overwrite [] (sampleRecord "open") (sampleRecord "closed")
    (by simp) (by decide) (by decide)

theorem insert_data_none_cases (store : List Row) (data : List RawRecord) :
    insert_data Option.none store data
        = (mergeBatch store (data.map recordArgs), Option.none)
    ∨ ((insert_data Option.none store data).1 = store
        ∧ (insert_data Option.none store data).2 ≠ Option.none) := by
  rw [insert_data_none_eq]
  split_ifs with h1 h2
  · right
    simp
  · left
    rfl
  · right
    simp

/-- C4 counterexample: a run whose bulk upsert fails with a connection
error still returns from main with no escaping error — insert_data
raises, but main catches the exception and the run reports nothing to
the process invoker. -/
theorem batch_failure_swallowed_cex :
    (insert_data (some (PgError.externalFailure "connection lost")) []
        [sampleRecord "open"]).2 = some (PgError.externalFailure "connection lost")
    ∧ (main_persist (some (PgError.externalFailure "connection lost")) []
        [sampleRecord "open"]).2 = Option.none :=
  ⟨rfl, rfl⟩

/-- C4 amended: the loader is atomic per batch — on any persistence
failure the transaction is rolled back, the store keeps its prior
contents (no partial batch effect) and insert_data re-raises the error,
cause preserved, to its caller main; on a successful run the whole
batch's merge is committed. main, however, catches the error, rolls
back and finishes normally, so the failure never escapes the run to the
process invoker. -/
theorem batch_atomicity (store : List Row) (data : List RawRecord) (e : PgError) :
    insert_data (some e) store data = (store, some e)
    ∧ ((insert_data Option.none store data).2 = Option.none →
        (insert_data Option.none store data).1 = mergeBatch store (data.map recordArgs))
    ∧ ((insert_data Option.none store data).2 ≠ Option.none →
        (insert_data Option.none store data).1 = store)
    ∧ (main_persist (some e) store data).2 = Option.none := by
  refine ⟨rfl, ?_, ?_, rfl⟩
  · intro h2
    rcases insert_data_none_cases store data with h | h
    · rw [h]
    · exact absurd h2 h.2
  · intro h3
    rcases insert_data_none_cases store data with h | h
    · rw [h] at h3
      simp at h3
    · exact h.1

/-- Witness for C4 at a concrete batch: the injected failure leaves the
store untouched and is re-raised by insert_data, and the failure-free
run commits the merged batch. -/
theorem batch_atomicity_witness :
    insert_data (some (PgError.externalFailure "down")) [] [sampleRecord "open"]
      = ([], some (PgError.externalFailure "down"))
    ∧ (insert_data Option.none [] [sampleRecord "open"]).1
      = mergeBatch [] ([sampleRecord "open"].map recordArgs)
    ∧ (main_persist (some (PgError.externalFailure "down")) [] [sampleRecord "open"]).2
      = Option.none :=
  ⟨(batch_atomicity [] [sampleRecord "open"] (PgError.externalFailure "down")).1,
   (batch_atomicity [] [sampleRecord "open"] (PgError.externalFailure "down")).2.1 (by decide),
   (batch_atomicity [] [sampleRecord "open"] (PgError.externalFailure "down")).2.2.2⟩

/-- C9 counterexample: 2025-02-30 is an invalid calendar date, yet the
run with arguments 2025 2 30 performs store activity and issues a
network request instead of failing fast — exactly as the script's help
text documents (invalid dates fail only at the API/query level). -/
theorem invalid_date_not_failfast_cex :
    spec_validDate 2025 2 30 = false
    ∧ Effect.network ∈ main_trace "2025" "2" "30"
    ∧ Effect.store ∈ main_trace "2025" "2" "30" := by
  refine ⟨by decide, by decide, by decide⟩

/-- C9 amended: arguments that fail integer parsing stop the run at
argparse, before any store or network activity; but integer arguments,
even ones encoding an invalid calendar date, are never validated — the
run proceeds through store activity and network requests regardless. -/
theorem args_fail_fast :
    (∀ yearArg monthArg dayArg : String,
        (parseIntArg yearArg = Option.none ∨ parseIntArg monthArg = Option.none
          ∨ parseIntArg dayArg = Option.none) →
        main_trace yearArg monthArg dayArg = [])
    ∧ ∀ (yearArg monthArg dayArg : String) (y m d : Int),
        parseIntArg yearArg = some y → parseIntArg monthArg = some m →
        parseIntArg dayArg = some d →
        main_trace yearArg monthArg dayArg
          = [Effect.store, Effect.store, Effect.store, Effect.store,
             Effect.network, Effect.store] := by
  constructor
  · intro yearArg monthArg dayArg h
    unfold main_trace
    cases hy : parseIntArg yearArg <;> cases hm : parseIntArg monthArg <;>
      cases hd : parseIntArg dayArg <;> simp_all
  · intro yearArg monthArg dayArg y m d hy hm hd
    unfold main_trace
    rw [hy, hm, hd]

/-- Witness for C9: a non-numeric year exits at argparse with no
effects, while the parseable but invalid date 2025-02-30 runs the full
store-and-network pipeline — also with the year given in int()'s
whitespace, plus-sign and underscore syntax. -/
theorem args_fail_fast_witness :
    main_trace "20x5" "1" "1" = []
    ∧ main_trace "2025" "2" "30"
      = [Effect.store, Effect.store, Effect.store, Effect.store,
         Effect.network, Effect.store]
    ∧ main_trace " +2_025 " "2" "30"
      = [Effect.store, Effect.store, Effect.store, Effect.store,
         Effect.network, Effect.store] :=
  ⟨args_fail_fast.1 "20x5" "1" "1" (Or.inl (by decide)),
   args_fail_fast.2 "2025" "2" "30" 2025 2 30 (by decide) (by decide) (by decide),
   args_fail_fast.2 " +2_025 " "2" "30" 2025 2 30 (by decide) (by decide) (by decide)⟩

end SF311
